import Mathlib

/-!
Shallow embedding of the ifelif library (index.js): three classes
IfElif, IfElifResult, ElseResult with methods then / elif / elseIf /
else / end, the top-level entry point _if, and a small heap model used
for the frame property.  Producers (zero-argument functions) are
modelled by identifiers; an environment maps each identifier to the
value the producer returns, and every operation additionally returns
the list of producer identifiers it invoked, in order.
-/

namespace Ifelif

/-- JavaScript values as the library manipulates them: undefined, null,
booleans, numbers, strings, and zero-argument functions identified by
an id. -/
inductive JSVal where
  | undef
  | null
  | bool (b : Bool)
  | num (n : Int)
  | str (s : String)
  | fn (i : Nat)
deriving DecidableEq

/-- JavaScript truthiness of a value (undefined, null, false, 0 and the
empty string are falsy; functions are truthy). -/
def truthy : JSVal → Bool
  | JSVal.undef => false
  | JSVal.null => false
  | JSVal.bool b => b
  | JSVal.num n => n != 0
  | JSVal.str s => !s.isEmpty
  | JSVal.fn _ => true

/-- The check the source performs with instanceof Function. -/
def isFunction : JSVal → Bool
  | JSVal.fn _ => true
  | _ => false

/-- Environment giving the value each zero-argument producer returns
when invoked. -/
def Env : Type := Nat → JSVal

/-- The pattern occurring throughout the source: if the value is a
function, invoke it (returning its value and logging the call),
otherwise keep the value itself. -/
def callLog (env : Env) (v : JSVal) : JSVal × List Nat :=
  match v with
  | JSVal.fn i => (env i, [i])
  | v => (v, [])

/-- class IfElif: the pending state, holding the current condition. -/
structure IfElif where
  condition : JSVal
deriving DecidableEq

/-- class IfElifResult: the resolved state, holding the stored result. -/
structure IfElifResult where
  result : JSVal
deriving DecidableEq

/-- class ElseResult: the state produced by an argument-less else call,
holding the stored result. -/
structure ElseResult where
  result : JSVal
deriving DecidableEq

/-- Constructor of IfElifResult: if the argument is a function it is
invoked and its return value stored, otherwise the argument itself is
stored. -/
def IfElifResult.make (env : Env) (result : JSVal) : IfElifResult × List Nat :=
  match result with
  | JSVal.fn i => (⟨env i⟩, [i])
  | v => (⟨v⟩, [])

/-- Constructor of ElseResult: if the argument is a function it is
invoked and its return value stored, otherwise the argument itself is
stored. -/
def ElseResult.make (env : Env) (result : JSVal) : ElseResult × List Nat :=
  match result with
  | JSVal.fn i => (⟨env i⟩, [i])
  | v => (⟨v⟩, [])

/-- Return type of IfElif.then, the union IfElifResult | IfElif from
the source annotation. -/
inductive ThenRet where
  | pending (s : IfElif)
  | resolved (s : IfElifResult)
deriving DecidableEq

/-- Return type of IfElif.else, the union ElseResult | IfElif | any
from the source annotation. -/
inductive ElseRetU where
  | pending (s : IfElif)
  | elseRes (s : ElseResult)
  | value (v : JSVal)
deriving DecidableEq

/-- Return type of IfElifResult.else, the union ElseResult | any from
the source annotation. -/
inductive ResElseRet where
  | elseRes (s : ElseResult)
  | value (v : JSVal)
deriving DecidableEq

/-- IfElif.if: returns a new IfElif with the given condition. -/
def IfElif.«if» (_s : IfElif) (condition : JSVal) : IfElif := ⟨condition⟩

/-- IfElif.then: if the held condition is truthy, a new IfElifResult is
constructed from the argument (invoking it when it is a function);
otherwise the receiver itself is returned unchanged. -/
def IfElif.«then» (env : Env) (s : IfElif) (yes : JSVal) : ThenRet × List Nat :=
  if truthy s.condition then
    match IfElifResult.make env yes with
    | (r, l) => (ThenRet.resolved r, l)
  else (ThenRet.pending s, [])

/-- IfElif.elif: returns a new IfElif with the given condition,
ignoring the receiver. -/
def IfElif.elif (_s : IfElif) (condition : JSVal) : IfElif := ⟨condition⟩

/-- IfElif.elseIf: alias for elif. -/
def IfElif.elseIf (_s : IfElif) (condition : JSVal) : IfElif := ⟨condition⟩

/-- IfElif.else: with a defined argument, returns the receiver itself
when the held condition is truthy, otherwise the argument (invoked when
it is a function); with no argument (undefined) returns a new
ElseResult constructed with no argument. -/
def IfElif.«else» (env : Env) (s : IfElif) (no : JSVal) : ElseRetU × List Nat :=
  if no ≠ JSVal.undef then
    if truthy s.condition then (ElseRetU.pending s, [])
    else
      match callLog env no with
      | (v, l) => (ElseRetU.value v, l)
  else (ElseRetU.elseRes ⟨JSVal.undef⟩, [])

/-- IfElif.end: returns null since the chain is not resolved. -/
def IfElif.«end» (_s : IfElif) : JSVal := JSVal.null

/-- IfElifResult.then: ignores its argument and returns the receiver. -/
def IfElifResult.«then» (s : IfElifResult) (_yes : JSVal) : IfElifResult := s

/-- IfElifResult.elif: ignores its argument and returns the receiver. -/
def IfElifResult.elif (s : IfElifResult) (_condition : JSVal) : IfElifResult := s

/-- IfElifResult.elseIf: alias for elif. -/
def IfElifResult.elseIf (s : IfElifResult) (_condition : JSVal) : IfElifResult := s

/-- IfElifResult.else: with a defined argument, returns the stored
result directly; with no argument (undefined) returns a new ElseResult
constructed from the stored result (which re-invokes it when it is a
function). -/
def IfElifResult.«else» (env : Env) (s : IfElifResult) (no : JSVal) : ResElseRet × List Nat :=
  if no ≠ JSVal.undef then (ResElseRet.value s.result, [])
  else
    match ElseResult.make env s.result with
    | (r, l) => (ResElseRet.elseRes r, l)

/-- IfElifResult.end: returns the stored result. -/
def IfElifResult.«end» (s : IfElifResult) : JSVal := s.result

/-- ElseResult.then: returns the JavaScript disjunction of the stored
result and the argument (the stored result when it is truthy, otherwise
the argument). -/
def ElseResult.«then» (s : ElseResult) (result : JSVal) : JSVal :=
  if truthy s.result then s.result else result

/-- ElseResult.end: returns the stored result. -/
def ElseResult.«end» (s : ElseResult) : JSVal := s.result

/-- Top-level entry point: starts a chain in the pending state. -/
def _if (condition : JSVal) : IfElif := ⟨condition⟩

/-- Runs the branch-building segment of a chain: for each pair (c, o)
in the list, performs the calls elif(c).then(o) on the current state,
accumulating the producer-invocation log. -/
def runBranches (env : Env) : ThenRet → List (JSVal × JSVal) → ThenRet × List Nat
  | s, [] => (s, [])
  | ThenRet.pending p, (c, o) :: rest =>
      match IfElif.«then» env (IfElif.elif p c) o with
      | (s2, l1) =>
          match runBranches env s2 rest with
          | (s3, l2) => (s3, l1 ++ l2)
  | ThenRet.resolved r, (c, o) :: rest =>
      runBranches env (ThenRet.resolved (IfElifResult.«then» (IfElifResult.elif r c) o)) rest

/-- Builds the chain _if(c1).then(o1).elif(c2).then(o2)... for the
branch list (c1, o1) :: rest, returning the final state and the
producer-invocation log. -/
def buildChain (env : Env) (first : JSVal × JSVal) (rest : List (JSVal × JSVal)) :
    ThenRet × List Nat :=
  match IfElif.«then» env (_if first.1) first.2 with
  | (s1, l1) =>
      match runBranches env s1 rest with
      | (s2, l2) => (s2, l1 ++ l2)

/-- Same as runBranches but using the elseIf alias at every branch
point. -/
def runBranchesElseIf (env : Env) : ThenRet → List (JSVal × JSVal) → ThenRet × List Nat
  | s, [] => (s, [])
  | ThenRet.pending p, (c, o) :: rest =>
      match IfElif.«then» env (IfElif.elseIf p c) o with
      | (s2, l1) =>
          match runBranchesElseIf env s2 rest with
          | (s3, l2) => (s3, l1 ++ l2)
  | ThenRet.resolved r, (c, o) :: rest =>
      runBranchesElseIf env (ThenRet.resolved (IfElifResult.«then» (IfElifResult.elseIf r c) o)) rest

/-- Same as buildChain but using the elseIf alias at every branch
point. -/
def buildChainElseIf (env : Env) (first : JSVal × JSVal) (rest : List (JSVal × JSVal)) :
    ThenRet × List Nat :=
  match IfElif.«then» env (_if first.1) first.2 with
  | (s1, l1) =>
      match runBranchesElseIf env s1 rest with
      | (s2, l2) => (s2, l1 ++ l2)

/-- Terminates a chain with end(). -/
def endChain : ThenRet → JSVal
  | ThenRet.pending p => IfElif.«end» p
  | ThenRet.resolved r => IfElifResult.«end» r

/-- Terminates a chain with else(x) (x = undefined models the
argument-less call), dispatching on the state the branch segment
reached. -/
def chainElse (env : Env) (first : JSVal × JSVal) (rest : List (JSVal × JSVal)) (x : JSVal) :
    ElseRetU × List Nat :=
  match buildChain env first rest with
  | (ThenRet.pending p, l) =>
      match IfElif.«else» env p x with
      | (r, l2) => (r, l ++ l2)
  | (ThenRet.resolved s, l) =>
      match IfElifResult.«else» env s x with
      | (ResElseRet.elseRes r, l2) => (ElseRetU.elseRes r, l ++ l2)
      | (ResElseRet.value v, l2) => (ElseRetU.value v, l ++ l2)

/-- Terminates a chain with else().then(y): an argument-less else
followed by then(y) on the resulting ElseResult. -/
def chainElseThen (env : Env) (first : JSVal × JSVal) (rest : List (JSVal × JSVal)) (y : JSVal) :
    Option (JSVal × List Nat) :=
  match chainElse env first rest JSVal.undef with
  | (ElseRetU.elseRes s, l) => some (ElseResult.«then» s y, l)
  | _ => none

/-- Modelled from the spec: the outcome of the first true condition of
the branch list, invoking a producer outcome, together with the
invocation that entails; none when no condition is true. -/
def specFirstWin (env : Env) : List (JSVal × JSVal) → Option (JSVal × List Nat)
  | [] => none
  | (c, o) :: rest => if truthy c then some (callLog env o) else specFirstWin env rest

/-- The producer-invocation log the spec predicts for the branch
segment: the winning branch's single invocation when its outcome is a
producer, nothing otherwise. -/
def specWinLog (env : Env) (l : List (JSVal × JSVal)) : List Nat :=
  match specFirstWin env l with
  | some (_, lg) => lg
  | none => []

/-- The condition held by the pending state after processing a branch
list from a state whose condition is d: the last condition of the list,
or d when the list is empty. -/
def lastCondAux (d : JSVal) : List (JSVal × JSVal) → JSVal
  | [] => d
  | (c, _) :: t => lastCondAux c t

/-- The condition the final pending state holds when no branch of
(first :: rest) matched. -/
def lastCond (first : JSVal × JSVal) (rest : List (JSVal × JSVal)) : JSVal :=
  lastCondAux first.1 rest

/-- The calls that can be made on a resolved (IfElifResult) state; the
x of elseCall is the call argument, undefined modelling an
argument-less else(). -/
inductive ResolvedCall where
  | thenCall (x : JSVal)
  | elifCall (c : JSVal)
  | elseIfCall (c : JSVal)
  | elseCall (x : JSVal)
deriving DecidableEq

/-- States reachable by one call on a resolved state. -/
inductive AfterResolved where
  | resolved (s : IfElifResult)
  | elseRes (s : ElseResult)
  | value (v : JSVal)
deriving DecidableEq

/-- Performs one call on a resolved state. -/
def applyResolved (env : Env) (r : IfElifResult) : ResolvedCall → AfterResolved × List Nat
  | ResolvedCall.thenCall x => (AfterResolved.resolved (IfElifResult.«then» r x), [])
  | ResolvedCall.elifCall c => (AfterResolved.resolved (IfElifResult.elif r c), [])
  | ResolvedCall.elseIfCall c => (AfterResolved.resolved (IfElifResult.elseIf r c), [])
  | ResolvedCall.elseCall x =>
      match IfElifResult.«else» env r x with
      | (ResElseRet.elseRes s, l) => (AfterResolved.elseRes s, l)
      | (ResElseRet.value v, l) => (AfterResolved.value v, l)

/-- The outcome value a post-call state exposes: the stored result as
returned by end(), or the value itself when the call returned a raw
value. -/
def AfterResolved.exposed : AfterResolved → JSVal
  | AfterResolved.resolved s => IfElifResult.«end» s
  | AfterResolved.elseRes s => ElseResult.«end» s
  | AfterResolved.value v => v

/-- Heap objects for the frame-property model: one variant per source
class, holding that class's single field. -/
inductive Obj where
  | ifElifO (condition : JSVal)
  | resultO (result : JSVal)
  | elseO (result : JSVal)
deriving DecidableEq

/-- What a method call can hand back in the heap model: a reference to
an object or a raw value. -/
inductive HRet where
  | ref (i : Nat)
  | val (v : JSVal)
deriving DecidableEq

/-- A method call with its argument; the x of elseM is undefined for
the argument-less call. -/
inductive MCall where
  | thenM (x : JSVal)
  | elifM (c : JSVal)
  | elseIfM (c : JSVal)
  | elseM (x : JSVal)
  | endM
deriving DecidableEq

/-- Method dispatch on an IfElif object holding condition c, mirroring
the bodies of IfElif's methods; new objects allocate at the end of the
heap. -/
def hPendingCall (env : Env) (h : List Obj) (self : Nat) (c : JSVal) :
    MCall → Option (List Obj × HRet)
  | MCall.thenM x =>
      if truthy c then some (h ++ [Obj.resultO (callLog env x).1], HRet.ref h.length)
      else some (h, HRet.ref self)
  | MCall.elifM c2 => some (h ++ [Obj.ifElifO c2], HRet.ref h.length)
  | MCall.elseIfM c2 => some (h ++ [Obj.ifElifO c2], HRet.ref h.length)
  | MCall.elseM x =>
      if x ≠ JSVal.undef then
        if truthy c then some (h, HRet.ref self)
        else some (h, HRet.val (callLog env x).1)
      else some (h ++ [Obj.elseO JSVal.undef], HRet.ref h.length)
  | MCall.endM => some (h, HRet.val JSVal.null)

/-- Method dispatch on an IfElifResult object holding result r,
mirroring the bodies of IfElifResult's methods. -/
def hResolvedCall (env : Env) (h : List Obj) (self : Nat) (r : JSVal) :
    MCall → Option (List Obj × HRet)
  | MCall.thenM _ => some (h, HRet.ref self)
  | MCall.elifM _ => some (h, HRet.ref self)
  | MCall.elseIfM _ => some (h, HRet.ref self)
  | MCall.elseM x =>
      if x ≠ JSVal.undef then some (h, HRet.val r)
      else some (h ++ [Obj.elseO (callLog env r).1], HRet.ref h.length)
  | MCall.endM => some (h, HRet.val r)

/-- Method dispatch on an ElseResult object holding result r, mirroring
the bodies of ElseResult's methods; the class only has then and end, so
any other call is the TypeError none. -/
def hElseResCall (_env : Env) (h : List Obj) (_self : Nat) (r : JSVal) :
    MCall → Option (List Obj × HRet)
  | MCall.thenM x => some (h, HRet.val (if truthy r then r else x))
  | MCall.endM => some (h, HRet.val r)
  | _ => none

/-- Dynamic dispatch of a method call on the object at index self of
the heap; none models the TypeError a missing receiver raises. -/
def hCall (env : Env) (h : List Obj) (self : Nat) (call : MCall) : Option (List Obj × HRet) :=
  match h[self]? with
  | some (Obj.ifElifO c) => hPendingCall env h self c call
  | some (Obj.resultO r) => hResolvedCall env h self r call
  | some (Obj.elseO r) => hElseResCall env h self r call
  | none => none

/-- An environment whose producers all return undefined. -/
def env0 : Env := fun _ => JSVal.undef

/-- An environment whose producers all return the number 7. -/
def env7 : Env := fun _ => JSVal.num 7

/-- The IfElifResult constructor stores exactly the call-or-keep value
of its argument and logs exactly that invocation. -/
theorem IfElifResult.make_eq (env : Env) (y : JSVal) :
    IfElifResult.make env y = (⟨(callLog env y).1⟩, (callLog env y).2) := by
  cases y <;> rfl

/-- Once the chain is resolved, running any further branches leaves the
state untouched and invokes no producer. -/
theorem runBranches_resolved (env : Env) (r : IfElifResult) (l : List (JSVal × JSVal)) :
    runBranches env (ThenRet.resolved r) l = (ThenRet.resolved r, []) := by
  induction l with
  | nil => rfl
  | cons hd t ih =>
      obtain ⟨c, o⟩ := hd
      simpa [runBranches, IfElifResult.«then», IfElifResult.elif] using ih

/-- Characterization of the branch segment from a pending state: it
resolves to the first true condition's outcome (with that branch's
producer invocation as the whole log), or stays pending on the last
condition with an empty log. -/
theorem runBranches_pending (env : Env) (p : IfElif) (l : List (JSVal × JSVal)) :
    runBranches env (ThenRet.pending p) l =
      (match specFirstWin env l with
       | some (v, lg) => (ThenRet.resolved ⟨v⟩, lg)
       | none => (ThenRet.pending ⟨lastCondAux p.condition l⟩, [])) := by
  induction l generalizing p with
  | nil => rfl
  | cons hd t ih =>
      obtain ⟨c, o⟩ := hd
      by_cases hc : truthy c = true
      · simp [runBranches, IfElif.elif, IfElif.«then», hc, specFirstWin,
          IfElifResult.make_eq, runBranches_resolved, lastCondAux]
      · simp only [runBranches, IfElif.elif, IfElif.«then», hc, specFirstWin,
          lastCondAux, if_false, Bool.false_eq_true, if_neg, ite_false]
        simpa using ih ⟨c⟩

/-- buildChain is the branch-segment run started on the first branch's
condition. -/
theorem buildChain_run (env : Env) (first : JSVal × JSVal) (rest : List (JSVal × JSVal)) :
    buildChain env first rest = runBranches env (ThenRet.pending ⟨first.1⟩) (first :: rest) := by
  obtain ⟨c, o⟩ := first
  simp [buildChain, runBranches, _if, IfElif.elif]

/-- Characterization of the whole branch phase: the state is resolved
on the first true condition's outcome, or pending on the last
condition, and the log is exactly the winning invocation if any. -/
theorem buildChain_eq (env : Env) (first : JSVal × JSVal) (rest : List (JSVal × JSVal)) :
    buildChain env first rest =
      ((match specFirstWin env (first :: rest) with
        | some (v, _) => ThenRet.resolved ⟨v⟩
        | none => ThenRet.pending ⟨lastCond first rest⟩),
       specWinLog env (first :: rest)) := by
  rw [buildChain_run, runBranches_pending]
  obtain ⟨c, o⟩ := first
  unfold specWinLog lastCond
  cases hw : specFirstWin env ((c, o) :: rest) with
  | none => simp [hw, lastCondAux]
  | some vl => obtain ⟨v, lg⟩ := vl; simp [hw]

/-- When no condition of the branch list is true, neither is the last
condition of the list. -/
theorem lastCondAux_falsy (env : Env) :
    ∀ (l : List (JSVal × JSVal)) (d : JSVal), truthy d = false →
      specFirstWin env l = none → truthy (lastCondAux d l) = false := by
  intro l
  induction l with
  | nil => intro d hd _; exact hd
  | cons hd t ih =>
      obtain ⟨c, o⟩ := hd
      intro d hd0 hw
      by_cases hc : truthy c = true
      · simp [specFirstWin, hc] at hw
      · simp only [specFirstWin, hc, if_neg, ite_false, Bool.false_eq_true] at hw
        simpa [lastCondAux] using ih c (by simpa using hc) (by simpa using hw)

/-- The elseIf-aliased branch run agrees with the elif one. -/
theorem runBranchesElseIf_eq (env : Env) :
    ∀ (l : List (JSVal × JSVal)) (s : ThenRet),
      runBranchesElseIf env s l = runBranches env s l := by
  intro l
  induction l with
  | nil => intro s; cases s <;> rfl
  | cons hd t ih =>
      obtain ⟨c, o⟩ := hd
      intro s
      cases s with
      | pending p =>
          simp only [runBranchesElseIf, runBranches, IfElif.elseIf, IfElif.elif]
          cases ht : IfElif.«then» env ⟨c⟩ o with
          | mk s2 l1 => simp [ih s2]
      | resolved r =>
          simp only [runBranchesElseIf, runBranches, IfElifResult.elseIf, IfElifResult.elif]
          exact ih _

/-- Claim C1: the chain _if(true).then(0).else().then(5), whose first
and only condition is true with outcome 0, returns 5 instead of 0: the
stored winning outcome 0 is falsy, and ElseResult.then prefers its
argument over a falsy stored result.  The spec-modelled first-true-wins
function gives 0 at the same input. -/
theorem c1_divergence :
    chainElseThen env0 (JSVal.bool true, JSVal.num 0) [] (JSVal.num 5) =
      some (JSVal.num 5, []) ∧
    specFirstWin env0 [(JSVal.bool true, JSVal.num 0)] = some (JSVal.num 0, []) ∧
    JSVal.num 5 ≠ JSVal.num 0 :=
  ⟨by decide, by decide, by decide⟩

/-- Claim C2, counterexample: a resolved state holding the callable
fn 0 (in an environment where producer 0 returns 7): the further call
else() invokes the callable again (log [0] rather than []) and the new
state stores 7, not the fixed outcome fn 0. -/
theorem c2_counterexample :
    applyResolved env7 ⟨JSVal.fn 0⟩ (ResolvedCall.elseCall JSVal.undef) =
      (AfterResolved.elseRes ⟨JSVal.num 7⟩, [0]) ∧
    JSVal.num 7 ≠ JSVal.fn 0 :=
  ⟨by decide, by decide⟩

/-- Claim C2 as amended: once resolved, then(x), elif(c), elseIf(c) and
else(x) with a defined argument expose the same fixed outcome value
with no producer invocation; else() with no argument does so too unless
the fixed outcome is itself a callable, in which case that callable is
invoked once more and its result becomes the stored outcome. -/
theorem c2_amended (env : Env) (r : IfElifResult) (call : ResolvedCall) :
    (match r.result, call with
     | JSVal.fn i, ResolvedCall.elseCall JSVal.undef =>
         applyResolved env r call = (AfterResolved.elseRes ⟨env i⟩, [i])
     | _, _ =>
         (applyResolved env r call).1.exposed = r.result ∧
         (applyResolved env r call).2 = []) := by
  obtain ⟨res⟩ := r
  cases call with
  | thenCall x => cases res <;> exact ⟨rfl, rfl⟩
  | elifCall c => cases res <;> exact ⟨rfl, rfl⟩
  | elseIfCall c => cases res <;> exact ⟨rfl, rfl⟩
  | elseCall x =>
      cases x <;> cases res <;> first | exact rfl | exact ⟨rfl, rfl⟩

/-- Claim C3: with no true condition, supplying the fallback producer
fn 0 via else().then returns the producer itself with no invocation,
while supplying it via else(fn 0) invokes it and returns its result 7;
the two forms the claim equates disagree, and the first never invokes
the producer. -/
theorem c3_divergence :
    chainElseThen env7 (JSVal.bool false, JSVal.num 1) [] (JSVal.fn 0) =
      some (JSVal.fn 0, []) ∧
    chainElse env7 (JSVal.bool false, JSVal.num 1) [] (JSVal.fn 0) =
      (ElseRetU.value (JSVal.num 7), [0]) ∧
    JSVal.fn 0 ≠ JSVal.num 7 :=
  ⟨by decide, by decide, by decide⟩

/-- Claim C4, counterexample: on a pending state holding the truthy
condition true, else(3) returns the receiver still pending (so end()
then yields null, not 3) instead of resolving immediately. -/
theorem c4_counterexample :
    IfElif.«else» env7 ⟨JSVal.bool true⟩ (JSVal.num 3) =
      (ElseRetU.pending ⟨JSVal.bool true⟩, []) ∧
    IfElif.«end» ⟨JSVal.bool true⟩ = JSVal.null ∧
    JSVal.null ≠ JSVal.num 3 :=
  ⟨by decide, by decide, by decide⟩

/-- Claim C4 as amended: else(outcome) with a defined argument on a
pending state resolves immediately, invoking the producer once when the
outcome is callable, exactly when the held condition is falsy; when the
held condition is truthy it returns the receiver unchanged, still
pending. -/
theorem c4_amended (env : Env) (p : IfElif) (x : JSVal) (h : x ≠ JSVal.undef) :
    IfElif.«else» env p x =
      if truthy p.condition then (ElseRetU.pending p, [])
      else (ElseRetU.value (callLog env x).1, (callLog env x).2) := by
  unfold IfElif.«else»
  rw [if_pos h]

/-- Claim C4 witness: on the falsy condition false, else(fn 0) resolves
immediately to the produced value 7 with one invocation. -/
theorem c4_amended_witness :
    IfElif.«else» env7 ⟨JSVal.bool false⟩ (JSVal.fn 0) =
      (ElseRetU.value (JSVal.num 7), [0]) := by
  rw [c4_amended env7 ⟨JSVal.bool false⟩ (JSVal.fn 0) (by decide)]
  decide

/-- Claim C5: for the chain _if(false).then(2).else().then(fn 1) the
fallback branch wins, its outcome is the producer fn 1, yet the
invocation log is empty (the producer is invoked zero times, not
exactly once) and the chain returns the producer fn 1 itself rather
than the value 7 it produces. -/
theorem c5_divergence :
    chainElseThen env7 (JSVal.bool false, JSVal.num 2) [] (JSVal.fn 1) =
      some (JSVal.fn 1, []) ∧
    isFunction (JSVal.fn 1) = true ∧
    env7 1 = JSVal.num 7 ∧
    JSVal.fn 1 ≠ JSVal.num 7 :=
  ⟨by decide, rfl, rfl, by decide⟩

/-- Claim C6, counterexample: the chain _if(true).then(null).end()
legitimately matches its first condition with outcome null and returns
null, the very value the no-match chain _if(false).then(1).end()
returns, so the sentinel is not distinct from every legitimately
matched outcome value. -/
theorem c6_counterexample :
    endChain (buildChain env0 (JSVal.bool true, JSVal.null) []).1 = JSVal.null ∧
    specFirstWin env0 [(JSVal.bool true, JSVal.null)] = some (JSVal.null, []) ∧
    endChain (buildChain env0 (JSVal.bool false, JSVal.num 1) []).1 = JSVal.null :=
  ⟨by decide, by decide, by decide⟩

/-- Claim C6 as amended: end() returns the no-match sentinel null when
no condition of the chain is true, and otherwise the first true
condition's outcome; since that outcome can itself be null, the
sentinel is not distinguishable from every legitimately matched
outcome. -/
theorem c6_amended (env : Env) (first : JSVal × JSVal) (rest : List (JSVal × JSVal)) :
    endChain (buildChain env first rest).1 =
      (match specFirstWin env (first :: rest) with
       | some (v, _) => v
       | none => JSVal.null) := by
  rw [buildChain_eq]
  cases hw : specFirstWin env (first :: rest) with
  | none => simp [hw, endChain, IfElif.«end»]
  | some vl =>
      obtain ⟨v, lg⟩ := vl
      simp [hw, endChain, IfElifResult.«end»]

/-- Claim C7: elseIf is extensionally equal to elif on the pending
state and on the resolved state, and a whole chain built with elseIf at
every branch point computes the same state and invocation log as the
chain built with elif. -/
theorem c7_alias_equiv :
    (∀ (p : IfElif) (c : JSVal), IfElif.elseIf p c = IfElif.elif p c) ∧
    (∀ (r : IfElifResult) (c : JSVal), IfElifResult.elseIf r c = IfElifResult.elif r c) ∧
    (∀ (env : Env) (first : JSVal × JSVal) (rest : List (JSVal × JSVal)),
        buildChainElseIf env first rest = buildChain env first rest) := by
  refine ⟨fun p c => rfl, fun r c => rfl, fun env first rest => ?_⟩
  unfold buildChainElseIf buildChain
  simp only [runBranchesElseIf_eq]

/-- Claim C8: every method call on any of the three states leaves every
previously allocated object exactly as it was (the heap is only ever
extended), and hands back the receiver itself, a freshly allocated
object, or a raw value. -/
theorem c8_no_mutation (env : Env) (h : List Obj) (self : Nat) (call : MCall)
    (h2 : List Obj) (ret : HRet) (hc : hCall env h self call = some (h2, ret)) :
    (∃ t, h2 = h ++ t) ∧
    (∀ i, i < h.length → h2[i]? = h[i]?) ∧
    (ret = HRet.ref self ∨ ret = HRet.ref h.length ∨ ∃ v, ret = HRet.val v) := by
  have key : (∃ t, h2 = h ++ t) ∧
      (ret = HRet.ref self ∨ ret = HRet.ref h.length ∨ ∃ v, ret = HRet.val v) := by
    unfold hCall at hc
    rcases hobj : h[self]? with _ | o
    · rw [hobj] at hc
      exact Option.noConfusion hc
    · rw [hobj] at hc
      cases o <;> cases call <;>
        (simp only [hPendingCall, hResolvedCall, hElseResCall] at hc
         try split_ifs at hc
         all_goals
           first
           | exact Option.noConfusion hc
           | (simp only [Option.some.injEq, Prod.mk.injEq] at hc
              obtain ⟨rfl, rfl⟩ := hc
              refine ⟨?_, ?_⟩
              · first
                | exact ⟨[], (List.append_nil h).symm⟩
                | exact ⟨_, rfl⟩
              · first
                | exact Or.inl rfl
                | exact Or.inr (Or.inl rfl)
                | exact Or.inr (Or.inr ⟨_, rfl⟩)))
  obtain ⟨⟨t, rfl⟩, hret⟩ := key
  exact ⟨⟨t, rfl⟩, fun i hi => List.getElem?_append_left hi, hret⟩

/-- Claim C8 witness: calling then(5) on a heap holding one pending
object with a true condition allocates a resolved object at index 1,
returns a reference to it, and leaves the object at index 0 intact. -/
theorem c8_no_mutation_witness :
    [Obj.ifElifO (JSVal.bool true), Obj.resultO (JSVal.num 5)][0]? =
      [Obj.ifElifO (JSVal.bool true)][0]? :=
  (c8_no_mutation env7 [Obj.ifElifO (JSVal.bool true)] 0 (MCall.thenM (JSVal.num 5))
    [Obj.ifElifO (JSVal.bool true), Obj.resultO (JSVal.num 5)] (HRet.ref 1)
    (by decide)).2.1 0 (by decide)

/-- Claim C9: in a chain with no true condition, else() with no
argument builds an ElseResult whose stored result is undefined, so a
following end() returns undefined, which is not the null no-match
sentinel. -/
theorem c9_else_end_undefined (env : Env) (first : JSVal × JSVal)
    (rest : List (JSVal × JSVal)) (h : specFirstWin env (first :: rest) = none) :
    chainElse env first rest JSVal.undef = (ElseRetU.elseRes ⟨JSVal.undef⟩, []) ∧
    ElseResult.«end» ⟨JSVal.undef⟩ = JSVal.undef ∧
    JSVal.undef ≠ JSVal.null := by
  refine ⟨?_, rfl, by decide⟩
  unfold chainElse
  rw [buildChain_eq, h]
  simp [specWinLog, h, IfElif.«else»]

/-- Claim C9 witness: the chain _if(false).then(1).else().end() returns
undefined. -/
theorem c9_witness :
    chainElse env0 (JSVal.bool false, JSVal.num 1) [] JSVal.undef =
      (ElseRetU.elseRes ⟨JSVal.undef⟩, []) :=
  (c9_else_end_undefined env0 (JSVal.bool false, JSVal.num 1) [] (by decide)).1

/-- Claim C10, counterexample: a resolved state holding the callable
fn 0 whose invocation returns undefined: else() stores undefined, and a
subsequent then(4) returns 4, which is neither the callable nor the
callable's result undefined. -/
theorem c10_counterexample :
    IfElifResult.«else» env0 ⟨JSVal.fn 0⟩ JSVal.undef =
      (ResElseRet.elseRes ⟨JSVal.undef⟩, [0]) ∧
    ElseResult.«then» ⟨JSVal.undef⟩ (JSVal.num 4) = JSVal.num 4 ∧
    env0 0 = JSVal.undef ∧
    JSVal.num 4 ≠ JSVal.undef :=
  ⟨by decide, by decide, rfl, by decide⟩

/-- Claim C10 as amended: on a resolved state whose fixed outcome is
the callable fn i, else() with no argument invokes the callable once
more and stores its return value; a subsequent end() yields that
stored result, and then(x) yields it when it is truthy and x
otherwise — in particular never the original callable when the stored
result differs from it. -/
theorem c10_amended (env : Env) (i : Nat) (x : JSVal) :
    IfElifResult.«else» env ⟨JSVal.fn i⟩ JSVal.undef =
      (ResElseRet.elseRes ⟨env i⟩, [i]) ∧
    ElseResult.«end» ⟨env i⟩ = env i ∧
    ElseResult.«then» ⟨env i⟩ x = (if truthy (env i) then env i else x) :=
  ⟨rfl, rfl, rfl⟩

end Ifelif
